import Mathlib

/-!
Verification of the column engine (`src/column.rs`) of an embedded
key-value store.  The column coordinates a hash index, sixteen
size-tiered value tables and an online reindex (rebalance) queue.

The index and value tables are external sub-engines (their code is not
part of this file's source); they are embedded as records of behaviour
functions, so every theorem below quantifies over all possible
behaviours of those sub-engines.  The parts of their behaviour that the
column's control flow depends on (probe order inside an index chunk,
the chunk count of an index table, the freshly created table of a
reindex promotion) are modelled from the specification and marked
`Modelled from the spec:` in their doc comments.

State is passed explicitly: the Rust code's lock-guarded mutation of
`tables` and `rebalance` becomes functions `Column → ... → Column`, and
the write-ahead log writer becomes an explicit list of staged plan
operations that plan producers append to.  Fallible Rust code
(`Result`) becomes `Except Error`.
-/

/-- Keys are fixed-width byte strings (a byte per list element). -/
abbrev Key := List Nat

/-- Values (payloads) are byte strings. -/
abbrev Value := List Nat

/-- Errors surfaced by the column.  `column.rs` itself only constructs
`Corruption`; `Panic` models the Rust `panic!` on an unexpected log
action (a programming error, spec section 7). -/
inductive Error where
  | Corruption (msg : String)
  | Panic (msg : String)
deriving DecidableEq

/-- `const START_BITS: u8 = 16` (column.rs line 28). -/
def START_BITS : Nat := 16

/-- `const MAX_REBALANCE_BATCH: u32 = 1024` (column.rs line 29). -/
def MAX_REBALANCE_BATCH : Nat := 1024

/-- An address packs a size tier (0..=15) and an offset into that value
table (`table.rs` `Address`, used by column.rs via `entry.address()`). -/
structure Address where
  offset : Nat
  size_tier : Fin 16
deriving DecidableEq

/-- `Address::new(offset, tier)`. -/
def Address.new (offset : Nat) (size_tier : Fin 16) : Address :=
  ⟨offset, size_tier⟩

/-- Identity of an index table: `(column id, index_bits)` (`index.rs`
`TableId`, consumed by column.rs). -/
structure IndexTableId where
  col : Nat
  index_bits : Nat
deriving DecidableEq

/-- Modelled from the spec: `TableId::total_chunks` lives in the index
subsystem, whose code is not part of this file's source.  Spec section 3:
total chunks = 2^(index_bits - k) for a fixed chunk fan-out; we fix the
fan-out at 64 entries per chunk (k = 6).  No claim below depends on the
exact fan-out, only on comparisons of `progress` against this count. -/
def IndexTableId.total_chunks (id : IndexTableId) : Nat :=
  2 ^ (id.index_bits - 6)

/-- Identity of a value table: `(column id, size tier)` (`table.rs`
`TableId`).  `size_tier` is the accessor column.rs calls. -/
structure ValueTableId where
  col : Nat
  size_tier : Fin 16
deriving DecidableEq

/-- An index entry is either empty or carries an address (`index.rs`
`Entry`: column.rs uses only `is_empty` and `address()`). -/
abbrev Entry := Option Address

/-- A plan operation staged in the write-ahead log by one of the plan
producers that column.rs calls.  The Rust plan producers write into the
`LogWriter`; here the staging is recorded as an explicit list element
describing the call, in call order. -/
inductive PlanOp where
  | valueInsert (tier : Fin 16) (key : Key) (val : Value) (offset : Nat)
  | valueReplace (tier : Fin 16) (offset : Nat) (key : Key) (val : Value)
  | valueRemove (tier : Fin 16) (offset : Nat)
  | indexInsert (table : IndexTableId) (key : Key) (address : Address) (sub_index : Option Nat)
  | indexRemove (table : IndexTableId) (key : Key) (sub_index : Nat)
deriving DecidableEq

/-- Outcome of a write plan (`index.rs` `PlanOutcome`). -/
inductive PlanOutcome where
  | Written
  | NeedRebalance
  | Skipped
deriving DecidableEq

/-- A value table as the column consumes it (spec section 4.A): a record
of behaviour functions, one per operation column.rs invokes.  The log
overlay argument of the Rust operations is baked into the behaviour
(it is fixed during one column call); plan producers may consult the
plan operations staged so far. -/
structure ValueTable where
  /-- `value_size()`: capacity of this tier. -/
  value_size : Nat
  /-- `get(key, offset, log)`: payload iff the record at `offset` holds `key`. -/
  get : Key → Nat → Except Error (Option Value)
  /-- `has_key_at(offset, key, log)`. -/
  has_key_at : Nat → Key → Except Error Bool
  /-- `raw_partial_key_at(offset)`: the stored key suffix, no log overlay. -/
  raw_partial_key_at : Nat → Except Error (Option Key)
  /-- `write_insert_plan(key, val, log) -> offset` (the staged reservation). -/
  write_insert_plan : Key → Value → List PlanOp → Except Error Nat
  /-- `write_replace_plan(offset, key, val, log)`. -/
  write_replace_plan : Nat → Key → Value → List PlanOp → Except Error Unit
  /-- `write_remove_plan(offset, log)`. -/
  write_remove_plan : Nat → List PlanOp → Except Error Unit
  /-- `enact_plan(record.index, log)` during log replay. -/
  enact_plan : Nat → Except Error Unit
  /-- `validate_plan(record.index, log)` during log replay. -/
  validate_plan : Nat → Except Error Unit

/-- An index table as the column consumes it (spec section 4.B).
Modelled from the spec: `get(key, sub_index, log)` probes the chunk the
key hashes to at or after `sub_index` and returns the next entry whose
partial hash matches the key, together with the probe position; an
empty entry when the chunk terminates.  `chunkFor key` is that chunk
viewed through the key: position `j` holds `some a` when sub-slot `j`
is occupied by a hash-match with address `a`, and `none` when sub-slot
`j` is empty or occupied by a different hash. -/
structure IndexTable where
  id : IndexTableId
  chunkFor : Key → List Entry
  /-- `write_insert_plan(key, address, sub_index, log) -> PlanOutcome`. -/
  write_insert_plan : Key → Address → Option Nat → List PlanOp → Except Error PlanOutcome
  /-- `write_remove_plan(key, sub_index, log)`. -/
  write_remove_plan : Key → Nat → List PlanOp → Except Error Unit
  /-- `raw_entries(chunk_index)`: a whole chunk, no log overlay. -/
  raw_entries : Nat → List Entry
  enact_plan : Nat → Except Error Unit
  validate_plan : Nat → Except Error Unit
  /-- `drop_file()`: delete the table's backing file. -/
  drop_file : Except Error Unit

/-- Scan a chunk suffix for the next non-empty (hash-matching) entry;
`pos` is the absolute sub-slot position of the suffix's head. -/
def probeFrom : List Entry → Nat → Entry × Nat
  | [], pos => (none, pos)
  | none :: rest, pos => probeFrom rest (pos + 1)
  | some a :: _, pos => (some a, pos)

/-- `index.get(key, sub_index, log)`: first hash-matching entry at or
after `sub_index`, and the position at which it was found. -/
def IndexTable.get (t : IndexTable) (key : Key) (sub_index : Nat) : Entry × Nat :=
  probeFrom ((t.chunkFor key).drop sub_index) sub_index

/-- Modelled from the spec: chunk fan-out of 64 entries per chunk
(matching `IndexTableId.total_chunks` with k = 6). -/
def CHUNK_ENTRIES : Nat := 64

/-- Modelled from the spec: `IndexTable::create_new(path, id)` makes a
fresh, empty index table (index.rs is not part of this file's source).
All chunks are empty, so an insert always finds a free sub-slot and
returns `Written`; replaying records against it succeeds. -/
def IndexTable.create_new (id : IndexTableId) : IndexTable where
  id := id
  chunkFor := fun _ => List.replicate CHUNK_ENTRIES none
  write_insert_plan := fun _ _ _ _ => .ok .Written
  write_remove_plan := fun _ _ _ => .ok ()
  raw_entries := fun _ => List.replicate CHUNK_ENTRIES none
  enact_plan := fun _ => .ok ()
  validate_plan := fun _ => .ok ()
  drop_file := .ok ()

/-- `struct Tables { index, value: [ValueTable; 16] }` (column.rs line 33). -/
structure Tables where
  index : IndexTable
  value : Fin 16 → ValueTable

/-- `struct Rebalance { queue, progress }` (column.rs line 38). -/
structure Rebalance where
  queue : List IndexTable
  progress : Nat

/-- `pub struct Column { tables, rebalance, path }` (column.rs line 43).
The path only feeds file creation/deletion, which the table models absorb. -/
structure Column where
  tables : Tables
  rebalance : Rebalance

/-- `Column::get_in_index` (column.rs lines 63-77): probe one index,
and for each hash-matching entry try the value table of its tier; stop
at the first payload.  The Rust `while` loop re-probes with
`sub_index + 1`; the structural `fuel` argument bounds it and is
supplied as the chunk length plus one, which the probe can never
exhaust. -/
def getInIndexGo (tables : Tables) (index : IndexTable) (key : Key) :
    Nat → Nat → Except Error (Option Value)
  | 0, _ => .ok none
  | fuel + 1, sub_index =>
    match index.get key sub_index with
    | (none, _) => .ok none
    | (some a, j) =>
      match (tables.value a.size_tier).get key a.offset with
      | .error e => .error e
      | .ok (some value) => .ok (some value)
      | .ok none => getInIndexGo tables index key fuel (j + 1)

/-- `Column::get_in_index(key, index, tables, log)`. -/
def Column.get_in_index (key : Key) (index : IndexTable) (tables : Tables) :
    Except Error (Option Value) :=
  getInIndexGo tables index key ((index.chunkFor key).length + 1) 0

/-- The `for r in &self.rebalance.read().queue` loop of `Column::get`
(column.rs lines 55-59): probe each queued index with the same current
`tables`. -/
def getQueue (tables : Tables) (key : Key) : List IndexTable → Except Error (Option Value)
  | [] => .ok none
  | r :: rest =>
    match Column.get_in_index key r tables with
    | .error e => .error e
    | .ok (some value) => .ok (some value)
    | .ok none => getQueue tables key rest

/-- `Column::get(key, log)` (column.rs lines 50-61): primary index
first, then every queued index, with the one shared value-table array. -/
def Column.get (c : Column) (key : Key) : Except Error (Option Value) :=
  match Column.get_in_index key c.tables.index c.tables with
  | .error e => .error e
  | .ok (some value) => .ok (some value)
  | .ok none => getQueue c.tables key c.rebalance.queue

/-- The tier capacities `Column::open` gives the sixteen value tables
(column.rs lines 83-97): tiers 0..14 are bounded, tier 15 (opened with
`entry_size = None`) holds arbitrarily large blobs. -/
def TIER_SIZES : List Nat :=
  [96, 128, 192, 256, 320, 512, 768, 1024, 1536, 2048, 3072, 4096, 8192, 16384, 32768]

/-- The sixteen tiers in array order, for the `iter().position` scan. -/
def tierOrder : List (Fin 16) :=
  [0, 1, 2, 3, 4, 5, 6, 7, 8, 9, 10, 11, 12, 13, 14, 15]

/-- The `target_tier` computation of `Column::write_plan` (column.rs
lines 179-186): position of the first value table whose `value_size`
is at least the payload length, or 15 (the blob tier) when none is. -/
def targetTier (value : Fin 16 → ValueTable) (len : Nat) : Fin 16 :=
  (tierOrder.find? fun t => len ≤ (value t).value_size).getD 15

/-- `Column::trigger_rebalance` (column.rs lines 136-158): create a new
index with one more bit, swap it in as the primary, push the old
primary to the back of the rebalance queue.  `rebalance.progress` is
not touched. -/
def Column.trigger_rebalance (c : Column) : Column :=
  let new_index_id : IndexTableId :=
    ⟨c.tables.index.id.col, c.tables.index.id.index_bits + 1⟩
  let new_table := IndexTable.create_new new_index_id
  { tables := { index := new_table, value := c.tables.value },
    rebalance := { queue := c.rebalance.queue ++ [c.tables.index],
                   progress := c.rebalance.progress } }

/-- The existing-entry probe loop of the insert path of
`Column::write_plan` (column.rs lines 188-218).  Returns `some
(outcome, log)` when an entry holding the key was found and handled in
place (replace in the same tier, or remove + insert + in-place index
overwrite for a tier migration), `none` when the loop fell through to
a fresh insertion.  `fuel` bounds the re-probe exactly as in
`getInIndexGo`. -/
def insertProbeGo (tables : Tables) (key : Key) (val : Value) (target_tier : Fin 16)
    (log : List PlanOp) : Nat → Nat → Except Error (Option (PlanOutcome × List PlanOp))
  | 0, _ => .ok none
  | fuel + 1, sub_index =>
    match tables.index.get key sub_index with
    | (none, _) => .ok none
    | (some existing_address, j) =>
      let existing_tier := existing_address.size_tier
      match (tables.value existing_tier).has_key_at existing_address.offset key with
      | .error e => .error e
      | .ok true =>
        if existing_tier = target_tier then
          match (tables.value target_tier).write_replace_plan
              existing_address.offset key val log with
          | .error e => .error e
          | .ok _ =>
            .ok (some (.Written,
              log ++ [.valueReplace target_tier existing_address.offset key val]))
        else
          match (tables.value existing_tier).write_remove_plan
              existing_address.offset log with
          | .error e => .error e
          | .ok _ =>
            let log1 := log ++ [.valueRemove existing_tier existing_address.offset]
            match (tables.value target_tier).write_insert_plan key val log1 with
            | .error e => .error e
            | .ok new_offset =>
              let log2 := log1 ++ [.valueInsert target_tier key val new_offset]
              let new_address := Address.new new_offset target_tier
              match tables.index.write_insert_plan key new_address (some j) log2 with
              | .error e => .error e
              | .ok outcome =>
                .ok (some (outcome,
                  if outcome = .NeedRebalance then log2
                  else log2 ++ [.indexInsert tables.index.id key new_address (some j)]))
      | .ok false => insertProbeGo tables key val target_tier log fuel (j + 1)

/-- The deletion loop of `Column::write_plan` (column.rs lines
236-249): probe the primary index only; on the first entry whose
value-table key matches, stage a value remove plan then an index
remove plan at the found sub-slot. -/
def deleteGo (tables : Tables) (key : Key) (log : List PlanOp) :
    Nat → Nat → Except Error (PlanOutcome × List PlanOp)
  | 0, _ => .ok (.Skipped, log)
  | fuel + 1, sub_index =>
    match tables.index.get key sub_index with
    | (none, _) => .ok (.Skipped, log)
    | (some existing_address, j) =>
      let existing_tier := existing_address.size_tier
      match (tables.value existing_tier).has_key_at existing_address.offset key with
      | .error e => .error e
      | .ok true =>
        match (tables.value existing_tier).write_remove_plan existing_address.offset log with
        | .error e => .error e
        | .ok _ =>
          let log1 := log ++ [.valueRemove existing_tier existing_address.offset]
          match tables.index.write_remove_plan key j log1 with
          | .error e => .error e
          | .ok _ => .ok (.Written, log1 ++ [.indexRemove tables.index.id key j])
      | .ok false => deleteGo tables key log fuel (j + 1)

/-- `Column::write_plan(key, value, log)` (column.rs lines 175-252),
with explicit state passing: returns the outcome, the log with the
staged plan operations appended, and the column (changed only by a
rebalance promotion).

`fuel` bounds the `NeedRebalance` recursion of lines 224-229; the Rust
recursion is finite because every promotion strictly grows
`index_bits` (spec section 9), and every theorem below supplies enough
fuel.  A staged index insert records `Written`/`Skipped` outcomes; a
`NeedRebalance` outcome staged nothing, the target chunk being full
(spec section 4.B). -/
def Column.write_plan : Nat → Column → Key → Option Value → List PlanOp →
    Except Error (PlanOutcome × List PlanOp × Column)
  | 0, _, _, _, _ => .error (.Panic "write_plan recursion fuel exhausted")
  | fuel + 1, c, key, value, log =>
    match value with
    | some val =>
      let tables := c.tables
      let target_tier := targetTier tables.value val.length
      match insertProbeGo tables key val target_tier log
          ((tables.index.chunkFor key).length + 1) 0 with
      | .error e => .error e
      | .ok (some (outcome, log1)) => .ok (outcome, log1, c)
      | .ok none =>
        match (tables.value target_tier).write_insert_plan key val log with
        | .error e => .error e
        | .ok offset =>
          let log1 := log ++ [.valueInsert target_tier key val offset]
          let address := Address.new offset target_tier
          match tables.index.write_insert_plan key address none log1 with
          | .error e => .error e
          | .ok .NeedRebalance =>
            let c1 := Column.trigger_rebalance c
            match Column.write_plan fuel c1 key value log1 with
            | .error e => .error e
            | .ok (_, log2, c2) => .ok (.NeedRebalance, log2, c2)
          | .ok _ =>
            .ok (.Written, log1 ++ [.indexInsert tables.index.id key address none], c)
    | none =>
      match deleteGo c.tables key log ((c.tables.index.chunkFor key).length + 1) 0 with
      | .error e => .error e
      | .ok (outcome, log1) => .ok (outcome, log1, c)

/-- A log record targeting an index table (`log.rs`, consumed by
column.rs as `record.table` / `record.index`; the record payload is
opaque to the column). -/
structure IndexLogRecord where
  table : IndexTableId
  index : Nat

/-- A log record targeting a value table. -/
structure ValueLogRecord where
  table : ValueTableId
  index : Nat

/-- `LogAction` (`log.rs`): the two variants column.rs handles, plus
`beginRecord` standing for the remaining variants of the closed enum
(spec section 6 lists them with an ellipsis), which the column rejects
as a programming error. -/
inductive LogAction where
  | InsertIndex (record : IndexLogRecord)
  | InsertValue (record : ValueLogRecord)
  | beginRecord

/-- `Column::enact_plan(action, log)` (column.rs lines 254-279):
route an index record to the primary when the id matches, else to the
queued table with the matching id, else fail with Corruption; route a
value record to the value table of the record's size tier.  The Rust
`panic!` on other actions is modelled as `Error.Panic`. -/
def Column.enact_plan (c : Column) (action : LogAction) : Except Error Unit :=
  match action with
  | .InsertIndex record =>
    if c.tables.index.id = record.table then
      c.tables.index.enact_plan record.index
    else
      match c.rebalance.queue.find? (fun r => r.id = record.table) with
      | some table => table.enact_plan record.index
      | none => .error (.Corruption "Missing table")
  | .InsertValue record =>
    (c.tables.value record.table.size_tier).enact_plan record.index
  | .beginRecord => .error (.Panic "Unexpected log action")

/-- `Column::validate_plan(action, log)` (column.rs lines 281-301):
identical routing to `enact_plan`, calling each table's validation. -/
def Column.validate_plan (c : Column) (action : LogAction) : Except Error Unit :=
  match action with
  | .InsertIndex record =>
    if c.tables.index.id = record.table then
      c.tables.index.validate_plan record.index
    else
      match c.rebalance.queue.find? (fun r => r.id = record.table) with
      | some table => table.validate_plan record.index
      | none => .error (.Corruption "Missing table")
  | .InsertValue record =>
    (c.tables.value record.table.size_tier).validate_plan record.index
  | .beginRecord => .error (.Panic "Unexpected log action")

/-- The big-endian bytes of a 16-bit word: `(w as u16).to_be_bytes()`. -/
def be16 (w : Nat) : List Nat :=
  [w % 65536 / 256, w % 256]

/-- The key reconstruction of `Column::rebalance` (column.rs lines
342-348): take the stored key suffix and overwrite its first two bytes
with the big-endian encoding of `(source_index >> shift) as u16`. -/
def restoreKey (stored : Key) (source_index shift : Nat) : Key :=
  be16 (source_index >>> shift) ++ stored.drop 2

/-- The per-chunk entry loop of `Column::rebalance` (column.rs lines
337-351): for each non-empty entry reconstruct its key from the value
table and append `(key, address)` to the accumulated plan; a value
table that cannot produce the stored key is a Corruption. -/
def processEntries (tables : Tables) (shift source_index : Nat) :
    List Entry → List (Key × Address) → Except Error (List (Key × Address))
  | [], plan => .ok plan
  | none :: rest, plan => processEntries tables shift source_index rest plan
  | some a :: rest, plan =>
    match (tables.value a.size_tier).raw_partial_key_at a.offset with
    | .error e => .error e
    | .ok none => .error (.Corruption "Bad value table key")
    | .ok (some stored) =>
      processEntries tables shift source_index rest
        (plan ++ [(restoreKey stored source_index shift, a)])

/-- The chunk loop of `Column::rebalance` (column.rs lines 335-354):
walk chunks while `source_index < total_chunks` and fewer than
`MAX_REBALANCE_BATCH` chunks have been processed.  Returns the final
`source_index` and the accumulated plan.  `fuel` bounds the loop
structurally; the caller supplies `total_chunks + 1`, which the loop
cannot exhaust. -/
def rebalanceLoopGo (tables : Tables) (source : IndexTable) :
    Nat → Nat → Nat → List (Key × Address) → Except Error (Nat × List (Key × Address))
  | 0, source_index, _, plan => .ok (source_index, plan)
  | fuel + 1, source_index, count, plan =>
    if source_index < source.id.total_chunks ∧ count < MAX_REBALANCE_BATCH then
      match processEntries tables (source.id.index_bits - 16) source_index
          (source.raw_entries source_index) plan with
      | .error e => .error e
      | .ok plan1 => rebalanceLoopGo tables source fuel (source_index + 1) (count + 1) plan1
    else .ok (source_index, plan)

/-- `Column::rebalance(log)` (column.rs lines 319-364), named
`runRebalance` because `Column.rebalance` is the state field: one
bounded batch of reindex work over the front of the queue.  Returns
the id to drop when the front became fully drained, the re-insertion
plan, and the column with the stored progress.  When the queue is
empty, or the progress already equals the front's chunk count, the
body is skipped and `(none, [])` is returned with the column
unchanged. -/
def runRebalance (c : Column) :
    Except Error (Option IndexTableId × List (Key × Address) × Column) :=
  match c.rebalance.queue with
  | [] => .ok (none, [], c)
  | source :: _ =>
    let progress := c.rebalance.progress
    if progress ≠ source.id.total_chunks then
      match rebalanceLoopGo c.tables source (source.id.total_chunks + 1) progress 0 [] with
      | .error e => .error e
      | .ok (source_index, plan) =>
        .ok ((if source_index = source.id.total_chunks then some source.id else none),
          plan,
          { c with rebalance := { queue := c.rebalance.queue, progress := source_index } })
    else .ok (none, [], c)

/-- `Column::drop_index(id)` (column.rs lines 366-379): when the queue
front exists and its id matches, pop it, reset progress to 0 and
delete its file; any other id is a stale message and a no-op.  The
returned flag records whether a file deletion was performed. -/
def Column.drop_index (c : Column) (id : IndexTableId) : Except Error (Column × Bool) :=
  match c.rebalance.queue with
  | table :: rest =>
    if table.id = id then
      match table.drop_file with
      | .error e => .error e
      | .ok _ => .ok ({ c with rebalance := { queue := rest, progress := 0 } }, true)
    else .ok (c, false)
  | [] => .ok (c, false)

/-- The hash-matching candidates of a chunk suffix, with their absolute
sub-slot positions: the list a repeated `index.get(key, sub_index + 1)`
probe walks through. -/
def candFrom : List Entry → Nat → List (Address × Nat)
  | [], _ => []
  | none :: rest, pos => candFrom rest (pos + 1)
  | some a :: rest, pos => (a, pos) :: candFrom rest (pos + 1)

theorem candFrom_nil_probe : ∀ (l : List Entry) (p : Nat),
    candFrom l p = [] → probeFrom l p = (none, p + l.length) := by
  intro l
  induction l with
  | nil => intro p _; simp [probeFrom]
  | cons e rest ih =>
    intro p h
    match e with
    | none =>
      simp only [candFrom] at h
      have h2 := ih (p + 1) h
      simp only [probeFrom, h2, List.length_cons, Prod.mk.injEq]
      exact ⟨trivial, by omega⟩
    | some a => simp [candFrom] at h

theorem candFrom_cons_probe : ∀ (l : List Entry) (p : Nat) (a : Address) (j : Nat)
    (rest : List (Address × Nat)), candFrom l p = (a, j) :: rest →
    probeFrom l p = (some a, j) ∧ p ≤ j ∧ j < p + l.length ∧
      rest = candFrom (l.drop (j + 1 - p)) (j + 1) := by
  intro l
  induction l with
  | nil => intro p a j rest h; simp [candFrom] at h
  | cons e tail ih =>
    intro p a j rest h
    match e with
    | none =>
      simp only [candFrom] at h
      obtain ⟨h1, h2, h3, h4⟩ := ih (p + 1) a j rest h
      refine ⟨by simpa [probeFrom] using h1, by omega, by simp only [List.length_cons]; omega, ?_⟩
      have hd : j + 1 - p = (j + 1 - (p + 1)) + 1 := by omega
      rw [hd]
      simpa using h4
    | some b =>
      simp only [candFrom, List.cons.injEq, Prod.mk.injEq] at h
      obtain ⟨⟨hb, hj⟩, hrest⟩ := h
      subst hb; subst hj; subst hrest
      refine ⟨rfl, le_refl _, by simp only [List.length_cons]; omega, ?_⟩
      simp

/-- The deletion protocol in the words of the specification (section
4.D.2, Delete): scan the primary index's candidates in probe order; on
the first whose value-table key matches, stage the value remove plan
then the index remove plan at the found sub-slot and finish `Written`;
when no candidate matches, finish `Skipped` with nothing staged. -/
def spec_delete_scan (tables : Tables) (key : Key) (log : List PlanOp) :
    List (Address × Nat) → Except Error (PlanOutcome × List PlanOp)
  | [] => .ok (.Skipped, log)
  | (a, j) :: rest =>
    match (tables.value a.size_tier).has_key_at a.offset key with
    | .error e => .error e
    | .ok true =>
      match (tables.value a.size_tier).write_remove_plan a.offset log with
      | .error e => .error e
      | .ok _ =>
        match tables.index.write_remove_plan key j
            (log ++ [.valueRemove a.size_tier a.offset]) with
        | .error e => .error e
        | .ok _ =>
          .ok (.Written,
            log ++ [.valueRemove a.size_tier a.offset, .indexRemove tables.index.id key j])
    | .ok false => spec_delete_scan tables key log rest

theorem deleteGo_eq (tables : Tables) (key : Key) (log : List PlanOp) :
    ∀ (fuel sub : Nat), (tables.index.chunkFor key).length - sub < fuel →
    deleteGo tables key log fuel sub =
      spec_delete_scan tables key log (candFrom ((tables.index.chunkFor key).drop sub) sub) := by
  intro fuel
  induction fuel with
  | zero => intro sub h; omega
  | succ fuel ih =>
    intro sub hfuel
    rcases hc : candFrom ((tables.index.chunkFor key).drop sub) sub with _ | ⟨⟨a, j⟩, rest⟩
    · have hp := candFrom_nil_probe _ _ hc
      simp only [deleteGo, IndexTable.get, hp, spec_delete_scan]
    · obtain ⟨hp, hpj, hjlt, hrest⟩ := candFrom_cons_probe _ _ _ _ _ hc
      have hlen : (tables.index.chunkFor key).length - sub
          = ((tables.index.chunkFor key).drop sub).length := by
        simp
      have hdd : ((tables.index.chunkFor key).drop sub).drop (j + 1 - sub)
          = (tables.index.chunkFor key).drop (j + 1) := by
        rw [List.drop_drop]
        congr 1
        omega
      rw [hdd] at hrest
      subst hrest
      simp only [deleteGo, IndexTable.get, hp, spec_delete_scan]
      rcases hk : (tables.value a.size_tier).has_key_at a.offset key with e | b
      · rfl
      · cases b


        · exact ih (j + 1) (by omega)
        · rcases hw : (tables.value a.size_tier).write_remove_plan a.offset log with e | u
          · rfl
          · rcases hw2 : tables.index.write_remove_plan key j
                (log ++ [.valueRemove a.size_tier a.offset]) with e | u
            · rw [hw2]
            · rw [hw2]; simp

theorem getQueue_ok_none_iff (tables : Tables) (key : Key) :
    ∀ q : List IndexTable, getQueue tables key q = .ok none ↔
      ∀ r ∈ q, Column.get_in_index key r tables = .ok none := by
  intro q
  induction q with
  | nil => simp [getQueue]
  | cons r rest ih =>
    simp only [getQueue]
    rcases hr : Column.get_in_index key r tables with e | v
    · simp [hr]
    · match v with
      | some value => simp [hr]
      | none => simp [hr, ih]

/-- One chunk of the reindex batch, in the words of the specification
(section 4.D.5): for each non-empty entry `(tier, offset)` of the
chunk, reconstruct the key from the value table's stored suffix and the
chunk index, failing with Corruption when the table cannot produce it. -/
def spec_chunk_scan (tables : Tables) (shift i : Nat) :
    List Entry → Except Error (List (Key × Address))
  | [] => .ok []
  | none :: rest => spec_chunk_scan tables shift i rest
  | some a :: rest =>
    match (tables.value a.size_tier).raw_partial_key_at a.offset with
    | .error e => .error e
    | .ok none => .error (.Corruption "Bad value table key")
    | .ok (some stored) =>
      match spec_chunk_scan tables shift i rest with
      | .error e => .error e
      | .ok tail => .ok ((restoreKey stored i shift, a) :: tail)

/-- A reindex batch over an explicit list of chunk indices, in the
words of the specification: concatenate the per-chunk plans in chunk
order. -/
def spec_batch_scan (tables : Tables) (source : IndexTable) (shift : Nat) :
    List Nat → Except Error (List (Key × Address))
  | [] => .ok []
  | i :: is =>
    match spec_chunk_scan tables shift i (source.raw_entries i) with
    | .error e => .error e
    | .ok chunk =>
      match spec_batch_scan tables source shift is with
      | .error e => .error e
      | .ok rest => .ok (chunk ++ rest)

theorem processEntries_eq (tables : Tables) (shift i : Nat) :
    ∀ (entries : List Entry) (plan : List (Key × Address)),
    processEntries tables shift i entries plan =
      (spec_chunk_scan tables shift i entries).map (fun tail => plan ++ tail) := by
  intro entries
  induction entries with
  | nil => intro plan; simp [processEntries, spec_chunk_scan, Except.map]
  | cons e rest ih =>
    intro plan
    match e with
    | none => simp only [processEntries, spec_chunk_scan]; exact ih plan
    | some a =>
      simp only [processEntries, spec_chunk_scan]
      rcases hk : (tables.value a.size_tier).raw_partial_key_at a.offset with e | s
      · rfl
      · match s with
        | none => rfl
        | some stored =>
          have h3 := ih (plan ++ [(restoreKey stored i shift, a)])
          rcases hs : spec_chunk_scan tables shift i rest with e2 | tail
          · rw [hs] at h3
            exact h3
          · rw [hs] at h3
            exact h3.trans (by simp [Except.map])

theorem rebalanceLoopGo_eq (tables : Tables) (source : IndexTable) :
    ∀ (fuel source_index count : Nat) (plan : List (Key × Address)),
    source.id.total_chunks - source_index < fuel →
    rebalanceLoopGo tables source fuel source_index count plan =
      (spec_batch_scan tables source (source.id.index_bits - 16)
          (List.range' source_index
            (min (source.id.total_chunks - source_index) (MAX_REBALANCE_BATCH - count)))).map
        (fun p =>
          (source_index +
             min (source.id.total_chunks - source_index) (MAX_REBALANCE_BATCH - count),
           plan ++ p)) := by
  intro fuel
  induction fuel with
  | zero => intro si count plan h; omega
  | succ fuel ih =>
    intro si count plan hfuel
    by_cases hcond : si < source.id.total_chunks ∧ count < MAX_REBALANCE_BATCH
    · have hs1 : min (source.id.total_chunks - si) (MAX_REBALANCE_BATCH - count)
          = min (source.id.total_chunks - (si + 1)) (MAX_REBALANCE_BATCH - (count + 1)) + 1 := by
        omega
      rw [hs1, List.range'_succ]
      simp only [rebalanceLoopGo, if_pos hcond,
        processEntries_eq tables (source.id.index_bits - 16) si, spec_batch_scan]
      rcases hch : spec_chunk_scan tables (source.id.index_bits - 16) si
          (source.raw_entries si) with e | chunk
      · simp [Except.map]
      · simp only [Except.map]
        rw [ih (si + 1) (count + 1) (plan ++ chunk) (by omega)]
        rcases hb : spec_batch_scan tables source (source.id.index_bits - 16)
            (List.range' (si + 1)
              (min (source.id.total_chunks - (si + 1))
                (MAX_REBALANCE_BATCH - (count + 1)))) with e | p
        · simp [Except.map]
        · simp only [Except.map, Except.ok.injEq, Prod.mk.injEq, List.append_assoc]
          exact ⟨by omega, by simp⟩
    · have hs0 : min (source.id.total_chunks - si) (MAX_REBALANCE_BATCH - count) = 0 := by
        omega
      rw [hs0]
      simp only [rebalanceLoopGo, if_neg hcond, List.range', spec_batch_scan, Except.map]
      simp

/-- A value table behaviour for concrete instantiations: inserts are
given the offset equal to the number of already-staged operations, so
successive staged inserts reserve distinct offsets. -/
def exValueTable : ValueTable where
  value_size := 96
  get := fun _ _ => .ok none
  has_key_at := fun _ _ => .ok false
  raw_partial_key_at := fun _ => .ok (some [0, 0, 5, 6])
  write_insert_plan := fun _ _ log => .ok log.length
  write_replace_plan := fun _ _ _ _ => .ok ()
  write_remove_plan := fun _ _ => .ok ()
  enact_plan := fun _ => .ok ()
  validate_plan := fun _ => .ok ()

/-- Sixteen concrete value tables with the capacities of `Column::open`
(tier 15 gets the out-of-range default). -/
def exValueTables : Fin 16 → ValueTable :=
  fun t => { exValueTable with value_size := TIER_SIZES.getD t.val 0 }

/-- A concrete 16-bit index table with no entries. -/
def exIndexBase : IndexTable where
  id := ⟨0, 16⟩
  chunkFor := fun _ => []
  write_insert_plan := fun _ _ _ _ => .ok .Written
  write_remove_plan := fun _ _ _ => .ok ()
  raw_entries := fun _ => []
  enact_plan := fun _ => .ok ()
  validate_plan := fun _ => .ok ()
  drop_file := .ok ()

/-- A concrete column whose rebalance front is fully drained:
`progress = total_chunks ⟨0, 16⟩ = 1024`. -/
def exC1 : Column where
  tables := { index := exIndexBase, value := exValueTables }
  rebalance := { queue := [exIndexBase], progress := 1024 }

/-- Claim C1, counterexample: on a column whose queue front is drained
(`progress = front.total_chunks`), `rebalance` returns `(None, [])`,
not `(Some(front.id), [])` as claimed — the whole body of
`Column::rebalance` sits inside `if progress != total_chunks` (column.rs
line 327), and `drop_index` stays `None` when that test fails. -/
theorem C1_counterexample :
    exC1.rebalance.queue = [exIndexBase] ∧
    exC1.rebalance.progress = exIndexBase.id.total_chunks ∧
    runRebalance exC1 = .ok (none, [], exC1) ∧
    ∀ c2, runRebalance exC1 ≠ .ok (some exIndexBase.id, [], c2) := by
  refine ⟨rfl, by decide, rfl, ?_⟩
  intro c2 hc
  rw [show runRebalance exC1 = .ok (none, [], exC1) from rfl] at hc
  simp at hc

/-- Claim C1, amended: for every column whose rebalance queue is
non-empty and whose progress counter already equals the front table's
total chunk count, `rebalance` returns `(None, [])` — an empty
re-insert plan and no id to drop (the drop id was already reported by
the batch that reached the end) — and leaves the column unchanged. -/
theorem C1_amended_thm (c : Column) (source : IndexTable) (rest : List IndexTable)
    (h1 : c.rebalance.queue = source :: rest)
    (h2 : c.rebalance.progress = source.id.total_chunks) :
    runRebalance c = .ok (none, [], c) := by
  simp only [runRebalance, h1]
  rw [if_neg]
  simp [h2]

/-- Claim C1, witness: the amended statement at the concrete drained
column. -/
theorem C1_witness : runRebalance exC1 = .ok (none, [], exC1) :=
  C1_amended_thm exC1 exIndexBase [] rfl (by decide)

/-- Claim C2: `get` probes the primary index first and returns its
first payload match; only when the primary yields no payload does it
probe the queued legacy indices, front first, with the same current
value-table array (`c.tables` in every probe); and it returns `ok none`
exactly when no index — primary or queued — yields a payload. -/
theorem C2_thm (c : Column) (key : Key) :
    (∀ v, Column.get_in_index key c.tables.index c.tables = .ok (some v) →
      Column.get c key = .ok (some v)) ∧
    (Column.get_in_index key c.tables.index c.tables = .ok none →
      ∀ r rest v, c.rebalance.queue = r :: rest →
        Column.get_in_index key r c.tables = .ok (some v) →
        Column.get c key = .ok (some v)) ∧
    (Column.get c key = .ok none ↔
      (Column.get_in_index key c.tables.index c.tables = .ok none ∧
       ∀ r ∈ c.rebalance.queue, Column.get_in_index key r c.tables = .ok none)) := by
  refine ⟨?_, ?_, ?_⟩
  · intro v hv
    simp [Column.get, hv]
  · intro h0 r rest v hq hr
    simp [Column.get, h0, hq, getQueue, hr]
  · constructor
    · intro hg
      rcases hp : Column.get_in_index key c.tables.index c.tables with e | ov
      · simp [Column.get, hp] at hg
      · match ov with
        | some v => simp [Column.get, hp] at hg
        | none =>
          refine ⟨rfl, ?_⟩
          have hq : getQueue c.tables key c.rebalance.queue = .ok none := by
            simpa [Column.get, hp] using hg
          exact (getQueue_ok_none_iff c.tables key c.rebalance.queue).1 hq
    · rintro ⟨h0, hall⟩
      simp only [Column.get, h0]
      exact (getQueue_ok_none_iff c.tables key c.rebalance.queue).2 hall

/-- Claim C5: a delete (`write_plan` with no value) only probes the
primary index; it behaves exactly as the candidate scan
`spec_delete_scan`: on the first probed entry whose value-table key
matches, a value-table remove plan is staged, then an index remove
plan at the found sub-slot, and the outcome is `Written`; when no
probed entry's key matches, the outcome is `Skipped` and the staged
log is unchanged.  The column state is never changed by a delete. -/
theorem C5_thm (c : Column) (key : Key) (log : List PlanOp) (fuel : Nat) :
    Column.write_plan (fuel + 1) c key none log =
      (spec_delete_scan c.tables key log
          (candFrom (c.tables.index.chunkFor key) 0)).map
        (fun r => (r.1, r.2, c)) := by
  have hd := deleteGo_eq c.tables key log ((c.tables.index.chunkFor key).length + 1) 0
      (by omega)
  rw [List.drop_zero] at hd
  simp only [Column.write_plan, hd]
  rcases spec_delete_scan c.tables key log (candFrom (c.tables.index.chunkFor key) 0)
      with e | ⟨o, l⟩
  · rfl
  · rfl

/-- Claim C7: a rebalance call with a non-drained front table equals
the specification-side batch scan: it processes exactly
`min (total_chunks - progress) MAX_REBALANCE_BATCH` chunks (so at most
1024); for each non-empty entry of a processed chunk the plan gets
`(key, address)` with the key rebuilt by `restoreKey` — the stored
suffix from `raw_partial_key_at` with its first two bytes overwritten
by the big-endian `(chunk_index >>> (index_bits - 16)) as u16`; the new
chunk position is stored into `progress`; the front id is reported for
dropping exactly when the end was reached; and a value table that
cannot reconstruct a stored key fails the call with Corruption (the
error is built inside `spec_chunk_scan`). -/
theorem C7_thm (c : Column) (source : IndexTable) (rest : List IndexTable)
    (h1 : c.rebalance.queue = source :: rest)
    (h2 : c.rebalance.progress < source.id.total_chunks) :
    runRebalance c =
      (spec_batch_scan c.tables source (source.id.index_bits - 16)
          (List.range' c.rebalance.progress
            (min (source.id.total_chunks - c.rebalance.progress) MAX_REBALANCE_BATCH))).map
        (fun plan =>
          ((if c.rebalance.progress +
                min (source.id.total_chunks - c.rebalance.progress) MAX_REBALANCE_BATCH
              = source.id.total_chunks then some source.id else none),
           plan,
           Column.mk c.tables
             (Rebalance.mk c.rebalance.queue
               (c.rebalance.progress +
                 min (source.id.total_chunks - c.rebalance.progress)
                   MAX_REBALANCE_BATCH)))) := by
  have hne : c.rebalance.progress ≠ source.id.total_chunks := by omega
  have hloop := rebalanceLoopGo_eq c.tables source (source.id.total_chunks + 1)
      c.rebalance.progress 0 [] (by omega)
  rw [Nat.sub_zero] at hloop
  simp only [runRebalance, h1]
  rw [if_pos hne, hloop]
  rcases hb : spec_batch_scan c.tables source (source.id.index_bits - 16)
      (List.range' c.rebalance.progress
        (min (source.id.total_chunks - c.rebalance.progress) MAX_REBALANCE_BATCH))
      with e | plan
  · simp [Except.map]
  · simp [Except.map, h1]

/-- A concrete front table with one live entry in its final chunk. -/
def exC7src : IndexTable :=
  { exIndexBase with
      raw_entries := fun i => if i = 1023 then [some (Address.new 7 0), none] else [] }

/-- A concrete column one chunk away from finishing the drain of its
front table. -/
def exC7 : Column where
  tables := { index := exIndexBase, value := exValueTables }
  rebalance := { queue := [exC7src], progress := 1023 }

/-- Claim C7, witness: the batch equation at the concrete column,
evaluated: chunk 1023 holds one entry at tier 0 offset 7, its stored
suffix is `[0,0,5,6]`, the first two bytes become the big-endian 1023
(`[3,255]`), progress reaches 1024 = total, and the front id is
reported. -/
theorem C7_witness :
    runRebalance exC7 =
      .ok (some exC7src.id, [([3, 255, 5, 6], Address.new 7 0)],
        Column.mk exC7.tables (Rebalance.mk [exC7src] 1024)) :=
  (C7_thm exC7 exC7src [] rfl (by decide)).trans (by rfl)

theorem probeFrom_replicate_none :
    ∀ n p : Nat, probeFrom (List.replicate n (none : Entry)) p = (none, p + n) := by
  intro n
  induction n with
  | zero => intro p; simp [probeFrom]
  | succ n ih =>
    intro p
    simp only [List.replicate, probeFrom, ih (p + 1), Prod.mk.injEq]
    exact ⟨trivial, by omega⟩

theorem insertProbeGo_create_new (id : IndexTableId) (value : Fin 16 → ValueTable)
    (key : Key) (val : Value) (tt : Fin 16) (log : List PlanOp) (fuel : Nat) :
    insertProbeGo ⟨IndexTable.create_new id, value⟩ key val tt log (fuel + 1) 0 = .ok none := by
  have hp := probeFrom_replicate_none CHUNK_ENTRIES 0
  simp only [insertProbeGo, IndexTable.get, IndexTable.create_new, List.drop_zero, hp]

/-- One unfolding of the fresh-insert path of `Column::write_plan`
(column.rs lines 220-233) in the case where the primary's index insert
reports `NeedRebalance`: the index is promoted and the write is
retried on the promoted column with the value insert already staged. -/
theorem writePlan_insert_step (c : Column) (key : Key) (val : Value)
    (log : List PlanOp) (fuel : Nat) (tt : Fin 16) (o1 : Nat)
    (htt : targetTier c.tables.value val.length = tt)
    (hprobe : insertProbeGo c.tables key val tt log
        ((c.tables.index.chunkFor key).length + 1) 0 = .ok none)
    (ho1 : (c.tables.value tt).write_insert_plan key val log = .ok o1)
    (hfull : c.tables.index.write_insert_plan key (Address.new o1 tt) none
        (log ++ [.valueInsert tt key val o1]) = .ok .NeedRebalance) :
    Column.write_plan (fuel + 1) c key (some val) log =
      match Column.write_plan fuel (Column.trigger_rebalance c) key (some val)
          (log ++ [.valueInsert tt key val o1]) with
      | .error e => .error e
      | .ok (_, log2, c2) => .ok (.NeedRebalance, log2, c2) := by
  simp only [Column.write_plan]
  simp only [htt, hprobe, ho1, hfull]

/-- `Column::write_plan` on a column whose primary index is freshly
created: the probe finds nothing, the value insert is staged, and the
index insert succeeds with `Written`. -/
theorem writePlan_on_fresh (id : IndexTableId) (value : Fin 16 → ValueTable)
    (reb : Rebalance) (key : Key) (val : Value) (log : List PlanOp) (fuel : Nat)
    (tt : Fin 16) (o : Nat)
    (htt : targetTier value val.length = tt)
    (ho : (value tt).write_insert_plan key val log = .ok o) :
    Column.write_plan (fuel + 1) ⟨⟨IndexTable.create_new id, value⟩, reb⟩ key (some val) log =
      .ok (.Written,
        log ++ [.valueInsert tt key val o, .indexInsert id key (Address.new o tt) none],
        ⟨⟨IndexTable.create_new id, value⟩, reb⟩) := by
  simp only [Column.write_plan]
  simp only [htt, insertProbeGo_create_new, ho]
  simp only [IndexTable.create_new]
  simp

/-- The full `NeedRebalance` insert scenario of `Column::write_plan`
(column.rs lines 220-229), as one equation: with no existing entry for
the key, a staged value insert at offset `o1`, a full primary chunk,
and a second staged value insert at offset `o2` on the retry, the call
stages the two value inserts and one index insert into the promoted
index referencing the second offset, and returns `NeedRebalance` with
the promoted column. -/
theorem writePlan_needRebalance_eq (c : Column) (key : Key) (val : Value)
    (log : List PlanOp) (fuel : Nat) (tt : Fin 16) (o1 o2 : Nat)
    (htt : targetTier c.tables.value val.length = tt)
    (hprobe : insertProbeGo c.tables key val tt log
        ((c.tables.index.chunkFor key).length + 1) 0 = .ok none)
    (ho1 : (c.tables.value tt).write_insert_plan key val log = .ok o1)
    (hfull : c.tables.index.write_insert_plan key (Address.new o1 tt) none
        (log ++ [.valueInsert tt key val o1]) = .ok .NeedRebalance)
    (ho2 : (c.tables.value tt).write_insert_plan key val
        (log ++ [.valueInsert tt key val o1]) = .ok o2) :
    Column.write_plan (fuel + 1 + 1) c key (some val) log =
      .ok (.NeedRebalance,
        log ++ [.valueInsert tt key val o1, .valueInsert tt key val o2,
          .indexInsert ⟨c.tables.index.id.col, c.tables.index.id.index_bits + 1⟩ key
            (Address.new o2 tt) none],
        Column.trigger_rebalance c) := by
  have hstep := writePlan_insert_step c key val log (fuel + 1) tt o1 htt hprobe ho1 hfull
  have hc1 : Column.trigger_rebalance c =
      ⟨⟨IndexTable.create_new ⟨c.tables.index.id.col, c.tables.index.id.index_bits + 1⟩,
        c.tables.value⟩,
       ⟨c.rebalance.queue ++ [c.tables.index], c.rebalance.progress⟩⟩ := rfl
  have hfresh := writePlan_on_fresh
      ⟨c.tables.index.id.col, c.tables.index.id.index_bits + 1⟩ c.tables.value
      ⟨c.rebalance.queue ++ [c.tables.index], c.rebalance.progress⟩ key val
      (log ++ [.valueInsert tt key val o1]) fuel tt o2 htt ho2
  rw [hc1] at hstep
  rw [hfresh] at hstep
  rw [hstep, ← hc1]
  simp

/-- Claim C3: when an insert finds no existing entry for the key (the
probe loop falls through) and the primary's `write_insert_plan`
reports `NeedRebalance`, `write_plan` promotes the index — the new
primary is a fresh table whose `index_bits` is the old primary's plus
one, the old primary moves to the back of the queue — retries the
write, which succeeds on the fresh primary (the staged log gains an
index insert into the promoted table's id), and reports
`NeedRebalance` to the caller. -/
theorem C3_thm (c : Column) (key : Key) (val : Value)
    (log : List PlanOp) (fuel : Nat) (tt : Fin 16) (o1 o2 : Nat)
    (htt : targetTier c.tables.value val.length = tt)
    (hprobe : insertProbeGo c.tables key val tt log
        ((c.tables.index.chunkFor key).length + 1) 0 = .ok none)
    (ho1 : (c.tables.value tt).write_insert_plan key val log = .ok o1)
    (hfull : c.tables.index.write_insert_plan key (Address.new o1 tt) none
        (log ++ [.valueInsert tt key val o1]) = .ok .NeedRebalance)
    (ho2 : (c.tables.value tt).write_insert_plan key val
        (log ++ [.valueInsert tt key val o1]) = .ok o2) :
    ∃ log2,
      Column.write_plan (fuel + 1 + 1) c key (some val) log =
        .ok (.NeedRebalance, log2, Column.trigger_rebalance c) ∧
      (Column.trigger_rebalance c).tables.index.id =
        ⟨c.tables.index.id.col, c.tables.index.id.index_bits + 1⟩ ∧
      (Column.trigger_rebalance c).rebalance.queue = c.rebalance.queue ++ [c.tables.index] ∧
      (Column.trigger_rebalance c).rebalance.progress = c.rebalance.progress ∧
      PlanOp.indexInsert ⟨c.tables.index.id.col, c.tables.index.id.index_bits + 1⟩ key
          (Address.new o2 tt) none ∈ log2 := by
  refine ⟨log ++ [.valueInsert tt key val o1, .valueInsert tt key val o2,
      .indexInsert ⟨c.tables.index.id.col, c.tables.index.id.index_bits + 1⟩ key
        (Address.new o2 tt) none],
    writePlan_needRebalance_eq c key val log fuel tt o1 o2 htt hprobe ho1 hfull ho2,
    rfl, rfl, rfl, ?_⟩
  simp

/-- A concrete primary index whose chunk for every key is full:
`write_insert_plan` always reports `NeedRebalance`. -/
def exPrimaryFull : IndexTable :=
  { exIndexBase with write_insert_plan := fun _ _ _ _ => .ok .NeedRebalance }

/-- A concrete column with a full primary index. -/
def exC3 : Column where
  tables := { index := exPrimaryFull, value := exValueTables }
  rebalance := { queue := [], progress := 0 }

/-- Claim C3, witness: the statement at the concrete full column, key
`[1,2,3]`, payload `[9]` (tier 0), staged offsets 0 and 1. -/
theorem C3_witness :
    ∃ log2,
      Column.write_plan 2 exC3 [1, 2, 3] (some [9]) [] =
        .ok (.NeedRebalance, log2, Column.trigger_rebalance exC3) ∧
      (Column.trigger_rebalance exC3).tables.index.id =
        ⟨exC3.tables.index.id.col, exC3.tables.index.id.index_bits + 1⟩ ∧
      (Column.trigger_rebalance exC3).rebalance.queue =
        exC3.rebalance.queue ++ [exC3.tables.index] ∧
      (Column.trigger_rebalance exC3).rebalance.progress = exC3.rebalance.progress ∧
      PlanOp.indexInsert ⟨exC3.tables.index.id.col, exC3.tables.index.id.index_bits + 1⟩
          [1, 2, 3] (Address.new 1 0) none ∈ log2 :=
  C3_thm exC3 [1, 2, 3] [9] [] 0 0 0 1 rfl rfl rfl rfl rfl

/-- Whether a staged operation is a value-table insert plan for `key`. -/
def isValueInsertFor (key : Key) : PlanOp → Bool
  | .valueInsert _ k _ _ => decide (k = key)
  | _ => false

/-- Whether a staged operation is an index insert plan. -/
def isIndexInsertOp : PlanOp → Bool
  | .indexInsert _ _ _ _ => true
  | _ => false

/-- Claim C10: in the `NeedRebalance` insert scenario, the value-table
insert plan staged before the failed index insert is neither cancelled
nor reused: the call appends exactly two value-table insert plans for
the key (offsets `o1` then `o2`), no remove plan at all, and the one
index insert plan staged references the second offset `o2` — so two
value slots are reserved for one key and only the second is referenced
by the index. -/
theorem C10_thm (c : Column) (key : Key) (val : Value)
    (log : List PlanOp) (fuel : Nat) (tt : Fin 16) (o1 o2 : Nat)
    (htt : targetTier c.tables.value val.length = tt)
    (hprobe : insertProbeGo c.tables key val tt log
        ((c.tables.index.chunkFor key).length + 1) 0 = .ok none)
    (ho1 : (c.tables.value tt).write_insert_plan key val log = .ok o1)
    (hfull : c.tables.index.write_insert_plan key (Address.new o1 tt) none
        (log ++ [.valueInsert tt key val o1]) = .ok .NeedRebalance)
    (ho2 : (c.tables.value tt).write_insert_plan key val
        (log ++ [.valueInsert tt key val o1]) = .ok o2) :
    ∃ newOps,
      Column.write_plan (fuel + 1 + 1) c key (some val) log =
        .ok (.NeedRebalance, log ++ newOps, Column.trigger_rebalance c) ∧
      newOps = [.valueInsert tt key val o1, .valueInsert tt key val o2,
        .indexInsert ⟨c.tables.index.id.col, c.tables.index.id.index_bits + 1⟩ key
          (Address.new o2 tt) none] ∧
      newOps.countP (isValueInsertFor key) = 2 ∧
      newOps.filter isIndexInsertOp =
        [.indexInsert ⟨c.tables.index.id.col, c.tables.index.id.index_bits + 1⟩ key
          (Address.new o2 tt) none] ∧
      ∀ t o, PlanOp.valueRemove t o ∉ newOps := by
  refine ⟨[.valueInsert tt key val o1, .valueInsert tt key val o2,
      .indexInsert ⟨c.tables.index.id.col, c.tables.index.id.index_bits + 1⟩ key
        (Address.new o2 tt) none],
    writePlan_needRebalance_eq c key val log fuel tt o1 o2 htt hprobe ho1 hfull ho2,
    rfl, ?_, ?_, ?_⟩
  · simp [List.countP_cons, isValueInsertFor]
  · simp [List.filter, isIndexInsertOp]
  · intro t o
    simp

/-- Claim C10, witness: the statement at the concrete full column. -/
theorem C10_witness :
    ∃ newOps,
      Column.write_plan 2 exC3 [1, 2, 3] (some [9]) [] =
        .ok (.NeedRebalance, [] ++ newOps, Column.trigger_rebalance exC3) ∧
      newOps = [.valueInsert 0 [1, 2, 3] [9] 0, .valueInsert 0 [1, 2, 3] [9] 1,
        .indexInsert ⟨exC3.tables.index.id.col, exC3.tables.index.id.index_bits + 1⟩
          [1, 2, 3] (Address.new 1 0) none] ∧
      newOps.countP (isValueInsertFor [1, 2, 3]) = 2 ∧
      newOps.filter isIndexInsertOp =
        [.indexInsert ⟨exC3.tables.index.id.col, exC3.tables.index.id.index_bits + 1⟩
          [1, 2, 3] (Address.new 1 0) none] ∧
      ∀ t o, PlanOp.valueRemove t o ∉ newOps :=
  C10_thm exC3 [1, 2, 3] [9] [] 0 0 0 1 rfl rfl rfl rfl rfl

/-- Claim C4: the tier chosen by the `target_tier` scan of
`Column::write_plan` is the minimum tier whose capacity is at least the
payload length: a bounded tier `t` satisfies `len ≤ capacity(t)` and
either `t = 0` or `capacity(t-1) < len`, and tier 15 is chosen exactly
when the length exceeds 32768, the largest bounded capacity (this holds
whatever `value_size` the blob tier reports).  The hypothesis is the
capacity assignment `Column::open` makes (column.rs lines 83-97). -/
theorem C4_thm (value : Fin 16 → ValueTable) (len : Nat)
    (hsz : ∀ i : Fin 16, i.val < 15 → (value i).value_size = TIER_SIZES.getD i.val 0) :
    ((targetTier value len).val = 15 ↔ 32768 < len) ∧
    ((targetTier value len).val < 15 →
      len ≤ TIER_SIZES.getD (targetTier value len).val 0 ∧
      ((targetTier value len).val = 0 ∨
        TIER_SIZES.getD ((targetTier value len).val - 1) 0 < len)) := by
  have e0 : (value 0).value_size = 96 := (hsz 0 (by decide)).trans rfl
  have e1 : (value 1).value_size = 128 := (hsz 1 (by decide)).trans rfl
  have e2 : (value 2).value_size = 192 := (hsz 2 (by decide)).trans rfl
  have e3 : (value 3).value_size = 256 := (hsz 3 (by decide)).trans rfl
  have e4 : (value 4).value_size = 320 := (hsz 4 (by decide)).trans rfl
  have e5 : (value 5).value_size = 512 := (hsz 5 (by decide)).trans rfl
  have e6 : (value 6).value_size = 768 := (hsz 6 (by decide)).trans rfl
  have e7 : (value 7).value_size = 1024 := (hsz 7 (by decide)).trans rfl
  have e8 : (value 8).value_size = 1536 := (hsz 8 (by decide)).trans rfl
  have e9 : (value 9).value_size = 2048 := (hsz 9 (by decide)).trans rfl
  have e10 : (value 10).value_size = 3072 := (hsz 10 (by decide)).trans rfl
  have e11 : (value 11).value_size = 4096 := (hsz 11 (by decide)).trans rfl
  have e12 : (value 12).value_size = 8192 := (hsz 12 (by decide)).trans rfl
  have e13 : (value 13).value_size = 16384 := (hsz 13 (by decide)).trans rfl
  have e14 : (value 14).value_size = 32768 := (hsz 14 (by decide)).trans rfl
  simp only [targetTier, tierOrder, List.find?, e0, e1, e2, e3, e4, e5, e6, e7, e8, e9, e10, e11, e12, e13, e14]
  by_cases c0 : len ≤ 96
  · simp only [c0, decide_True, cond_true, Option.getD_some]
    have hv : ((0 : Fin 16)).val = 0 := rfl
    rw [hv]
    have g1 : TIER_SIZES.getD (0 : Nat) 0 = 96 := rfl
    rw [g1]
    omega
  · simp only [c0, decide_False, cond_false]
    by_cases c1 : len ≤ 128
    · simp only [c1, decide_True, cond_true, Option.getD_some]
      have hv : ((1 : Fin 16)).val = 1 := rfl
      rw [hv]
      have g1 : TIER_SIZES.getD (1 : Nat) 0 = 128 := rfl
      have g2 : TIER_SIZES.getD (1 - 1 : Nat) 0 = 96 := rfl
      rw [g1, g2]
      omega
    · simp only [c1, decide_False, cond_false]
      by_cases c2 : len ≤ 192
      · simp only [c2, decide_True, cond_true, Option.getD_some]
        have hv : ((2 : Fin 16)).val = 2 := rfl
        rw [hv]
        have g1 : TIER_SIZES.getD (2 : Nat) 0 = 192 := rfl
        have g2 : TIER_SIZES.getD (2 - 1 : Nat) 0 = 128 := rfl
        rw [g1, g2]
        omega
      · simp only [c2, decide_False, cond_false]
        by_cases c3 : len ≤ 256
        · simp only [c3, decide_True, cond_true, Option.getD_some]
          have hv : ((3 : Fin 16)).val = 3 := rfl
          rw [hv]
          have g1 : TIER_SIZES.getD (3 : Nat) 0 = 256 := rfl
          have g2 : TIER_SIZES.getD (3 - 1 : Nat) 0 = 192 := rfl
          rw [g1, g2]
          omega
        · simp only [c3, decide_False, cond_false]
          by_cases c4 : len ≤ 320
          · simp only [c4, decide_True, cond_true, Option.getD_some]
            have hv : ((4 : Fin 16)).val = 4 := rfl
            rw [hv]
            have g1 : TIER_SIZES.getD (4 : Nat) 0 = 320 := rfl
            have g2 : TIER_SIZES.getD (4 - 1 : Nat) 0 = 256 := rfl
            rw [g1, g2]
            omega
          · simp only [c4, decide_False, cond_false]
            by_cases c5 : len ≤ 512
            · simp only [c5, decide_True, cond_true, Option.getD_some]
              have hv : ((5 : Fin 16)).val = 5 := rfl
              rw [hv]
              have g1 : TIER_SIZES.getD (5 : Nat) 0 = 512 := rfl
              have g2 : TIER_SIZES.getD (5 - 1 : Nat) 0 = 320 := rfl
              rw [g1, g2]
              omega
            · simp only [c5, decide_False, cond_false]
              by_cases c6 : len ≤ 768
              · simp only [c6, decide_True, cond_true, Option.getD_some]
                have hv : ((6 : Fin 16)).val = 6 := rfl
                rw [hv]
                have g1 : TIER_SIZES.getD (6 : Nat) 0 = 768 := rfl
                have g2 : TIER_SIZES.getD (6 - 1 : Nat) 0 = 512 := rfl
                rw [g1, g2]
                omega
              · simp only [c6, decide_False, cond_false]
                by_cases c7 : len ≤ 1024
                · simp only [c7, decide_True, cond_true, Option.getD_some]
                  have hv : ((7 : Fin 16)).val = 7 := rfl
                  rw [hv]
                  have g1 : TIER_SIZES.getD (7 : Nat) 0 = 1024 := rfl
                  have g2 : TIER_SIZES.getD (7 - 1 : Nat) 0 = 768 := rfl
                  rw [g1, g2]
                  omega
                · simp only [c7, decide_False, cond_false]
                  by_cases c8 : len ≤ 1536
                  · simp only [c8, decide_True, cond_true, Option.getD_some]
                    have hv : ((8 : Fin 16)).val = 8 := rfl
                    rw [hv]
                    have g1 : TIER_SIZES.getD (8 : Nat) 0 = 1536 := rfl
                    have g2 : TIER_SIZES.getD (8 - 1 : Nat) 0 = 1024 := rfl
                    rw [g1, g2]
                    omega
                  · simp only [c8, decide_False, cond_false]
                    by_cases c9 : len ≤ 2048
                    · simp only [c9, decide_True, cond_true, Option.getD_some]
                      have hv : ((9 : Fin 16)).val = 9 := rfl
                      rw [hv]
                      have g1 : TIER_SIZES.getD (9 : Nat) 0 = 2048 := rfl
                      have g2 : TIER_SIZES.getD (9 - 1 : Nat) 0 = 1536 := rfl
                      rw [g1, g2]
                      omega
                    · simp only [c9, decide_False, cond_false]
                      by_cases c10 : len ≤ 3072
                      · simp only [c10, decide_True, cond_true, Option.getD_some]
                        have hv : ((10 : Fin 16)).val = 10 := rfl
                        rw [hv]
                        have g1 : TIER_SIZES.getD (10 : Nat) 0 = 3072 := rfl
                        have g2 : TIER_SIZES.getD (10 - 1 : Nat) 0 = 2048 := rfl
                        rw [g1, g2]
                        omega
                      · simp only [c10, decide_False, cond_false]
                        by_cases c11 : len ≤ 4096
                        · simp only [c11, decide_True, cond_true, Option.getD_some]
                          have hv : ((11 : Fin 16)).val = 11 := rfl
                          rw [hv]
                          have g1 : TIER_SIZES.getD (11 : Nat) 0 = 4096 := rfl
                          have g2 : TIER_SIZES.getD (11 - 1 : Nat) 0 = 3072 := rfl
                          rw [g1, g2]
                          omega
                        · simp only [c11, decide_False, cond_false]
                          by_cases c12 : len ≤ 8192
                          · simp only [c12, decide_True, cond_true, Option.getD_some]
                            have hv : ((12 : Fin 16)).val = 12 := rfl
                            rw [hv]
                            have g1 : TIER_SIZES.getD (12 : Nat) 0 = 8192 := rfl
                            have g2 : TIER_SIZES.getD (12 - 1 : Nat) 0 = 4096 := rfl
                            rw [g1, g2]
                            omega
                          · simp only [c12, decide_False, cond_false]
                            by_cases c13 : len ≤ 16384
                            · simp only [c13, decide_True, cond_true, Option.getD_some]
                              have hv : ((13 : Fin 16)).val = 13 := rfl
                              rw [hv]
                              have g1 : TIER_SIZES.getD (13 : Nat) 0 = 16384 := rfl
                              have g2 : TIER_SIZES.getD (13 - 1 : Nat) 0 = 8192 := rfl
                              rw [g1, g2]
                              omega
                            · simp only [c13, decide_False, cond_false]
                              by_cases c14 : len ≤ 32768
                              · simp only [c14, decide_True, cond_true, Option.getD_some]
                                have hv : ((14 : Fin 16)).val = 14 := rfl
                                rw [hv]
                                have g1 : TIER_SIZES.getD (14 : Nat) 0 = 32768 := rfl
                                have g2 : TIER_SIZES.getD (14 - 1 : Nat) 0 = 16384 := rfl
                                rw [g1, g2]
                                omega
                              · simp only [c14, decide_False, cond_false]
                                cases hb : decide (len ≤ (value 15).value_size)
                                · simp only [hb, cond_false, Option.getD_none]
                                  have hv : ((15 : Fin 16)).val = 15 := rfl
                                  rw [hv]
                                  omega
                                · simp only [hb, cond_true, Option.getD_some]
                                  have hv : ((15 : Fin 16)).val = 15 := rfl
                                  rw [hv]
                                  omega

/-- Claim C4, witness: the minimality statement at the concrete tier
capacities, for a 100-byte payload (tier 1). -/
theorem C4_witness :
    ((targetTier exValueTables 100).val = 15 ↔ 32768 < 100) ∧
    ((targetTier exValueTables 100).val < 15 →
      100 ≤ TIER_SIZES.getD (targetTier exValueTables 100).val 0 ∧
      ((targetTier exValueTables 100).val = 0 ∨
        TIER_SIZES.getD ((targetTier exValueTables 100).val - 1) 0 < 100)) :=
  C4_thm exValueTables 100 (fun _ _ => rfl)


/-- The queue invariant of spec section 3: the primary index's
`index_bits` is strictly greater than the `index_bits` of every queued
index. -/
def PrimaryDominates (c : Column) : Prop :=
  ∀ t ∈ c.rebalance.queue, t.id.index_bits < c.tables.index.id.index_bits

/-- Claim C6: a rebalance promotion replaces the primary with a fresh
index whose `index_bits` is the old primary's plus one, pushes the old
primary to the back of the queue, and leaves the progress counter
unchanged; the invariant that the primary strictly dominates every
queued index is preserved, and the primary's `index_bits` strictly
grows (so it is non-decreasing across all operations, promotion being
the only one that touches the primary). -/
theorem C6_thm (c : Column) (hinv : PrimaryDominates c) :
    (Column.trigger_rebalance c).tables.index =
      IndexTable.create_new ⟨c.tables.index.id.col, c.tables.index.id.index_bits + 1⟩ ∧
    (Column.trigger_rebalance c).tables.index.id.index_bits =
      c.tables.index.id.index_bits + 1 ∧
    (Column.trigger_rebalance c).rebalance.queue = c.rebalance.queue ++ [c.tables.index] ∧
    (Column.trigger_rebalance c).rebalance.progress = c.rebalance.progress ∧
    PrimaryDominates (Column.trigger_rebalance c) ∧
    c.tables.index.id.index_bits < (Column.trigger_rebalance c).tables.index.id.index_bits := by
  refine ⟨rfl, rfl, rfl, rfl, ?_, Nat.lt_succ_self _⟩
  intro t ht
  have hq : (Column.trigger_rebalance c).rebalance.queue
      = c.rebalance.queue ++ [c.tables.index] := rfl
  have hbits : (Column.trigger_rebalance c).tables.index.id.index_bits
      = c.tables.index.id.index_bits + 1 := rfl
  rw [hq] at ht
  rw [hbits]
  rcases List.mem_append.mp ht with h | h
  · exact Nat.lt_succ_of_lt (hinv t h)
  · have ht2 : t = c.tables.index := by simpa using h
    rw [ht2]
    exact Nat.lt_succ_self _

/-- A concrete column with an empty rebalance queue. -/
def exC6 : Column where
  tables := { index := exIndexBase, value := exValueTables }
  rebalance := { queue := [], progress := 0 }

/-- Claim C6, witness: the promotion facts at the concrete column. -/
theorem C6_witness :
    (Column.trigger_rebalance exC6).tables.index =
      IndexTable.create_new ⟨exC6.tables.index.id.col, exC6.tables.index.id.index_bits + 1⟩ ∧
    (Column.trigger_rebalance exC6).tables.index.id.index_bits =
      exC6.tables.index.id.index_bits + 1 ∧
    (Column.trigger_rebalance exC6).rebalance.queue =
      exC6.rebalance.queue ++ [exC6.tables.index] ∧
    (Column.trigger_rebalance exC6).rebalance.progress = exC6.rebalance.progress ∧
    PrimaryDominates (Column.trigger_rebalance exC6) ∧
    exC6.tables.index.id.index_bits <
      (Column.trigger_rebalance exC6).tables.index.id.index_bits :=
  C6_thm exC6 (fun t ht => absurd ht (List.not_mem_nil t))

/-- Claim C8: `enact_plan` routes an `InsertIndex` record to the
primary index when the record's table id equals the primary's id,
otherwise to the queued index found by id, and otherwise fails with
`Corruption "Missing table"`; an `InsertValue` record goes to the value
table of the record's size tier.  `validate_plan` routes identically. -/
theorem C8_thm (c : Column) (r : IndexLogRecord) (v : ValueLogRecord) :
    (c.tables.index.id = r.table →
      Column.enact_plan c (.InsertIndex r) = c.tables.index.enact_plan r.index ∧
      Column.validate_plan c (.InsertIndex r) = c.tables.index.validate_plan r.index) ∧
    (c.tables.index.id ≠ r.table →
      ∀ t, c.rebalance.queue.find? (fun q => q.id = r.table) = some t →
        Column.enact_plan c (.InsertIndex r) = t.enact_plan r.index ∧
        Column.validate_plan c (.InsertIndex r) = t.validate_plan r.index) ∧
    (c.tables.index.id ≠ r.table →
      c.rebalance.queue.find? (fun q => q.id = r.table) = none →
        Column.enact_plan c (.InsertIndex r) = .error (.Corruption "Missing table") ∧
        Column.validate_plan c (.InsertIndex r) = .error (.Corruption "Missing table")) ∧
    (Column.enact_plan c (.InsertValue v) =
        (c.tables.value v.table.size_tier).enact_plan v.index ∧
      Column.validate_plan c (.InsertValue v) =
        (c.tables.value v.table.size_tier).validate_plan v.index) := by
  refine ⟨?_, ?_, ?_, rfl, rfl⟩
  · intro h
    constructor <;> simp [Column.enact_plan, Column.validate_plan, h]
  · intro h t ht
    constructor <;> simp [Column.enact_plan, Column.validate_plan, h, ht]
  · intro h hn
    constructor <;> simp [Column.enact_plan, Column.validate_plan, h, hn]

/-- Claim C9: `drop_index` pops the queue front, resets progress to 0
and deletes the popped table's file exactly when the front exists and
its id matches; for any other id — a non-matching front or an empty
queue — it returns success with the column unchanged and no file
deleted. -/
theorem C9_thm (c : Column) (id : IndexTableId) :
    (∀ t rest, c.rebalance.queue = t :: rest → t.id = id → t.drop_file = .ok () →
      Column.drop_index c id = .ok (Column.mk c.tables (Rebalance.mk rest 0), true)) ∧
    (∀ t rest, c.rebalance.queue = t :: rest → t.id ≠ id →
      Column.drop_index c id = .ok (c, false)) ∧
    (c.rebalance.queue = [] → Column.drop_index c id = .ok (c, false)) := by
  refine ⟨?_, ?_, ?_⟩
  · intro t rest hq hid hf
    simp [Column.drop_index, hq, hid, hf]
  · intro t rest hq hid
    simp [Column.drop_index, hq, hid]
  · intro hq
    simp [Column.drop_index, hq]
